import Mathlib

/-!
Verification of the RecurrenceRule wrapper (a Coda pack around the rrule
library).  JavaScript strings are embedded as `List Char`; the token
converters of `src/rrule_converter.ts`, the object helpers of
`src/utils/object.helpers.ts`, the control-code escaping of
`src/utils/string.helpers.ts` and the formula bodies of `src/pack.ts` are
translated below.  Behaviour of the external rrule library (not part of
this repository's sources) is modelled from the specification where a
claim needs it; each such definition says so in its doc comment.
-/

/-! ## JavaScript string primitives -/

/-- ASCII lower-casing of one character; JS `toLowerCase` restricted to the
ASCII range, which covers every token the converters compare against. -/
def toLowerAscii (c : Char) : Char :=
  if 'A' ≤ c ∧ c ≤ 'Z' then Char.ofNat (c.toNat + 32) else c

/-- ASCII upper-casing of one character (JS `toUpperCase` on ASCII). -/
def toUpperAscii (c : Char) : Char :=
  if 'a' ≤ c ∧ c ≤ 'z' then Char.ofNat (c.toNat - 32) else c

/-- JS `String.prototype.toLowerCase` on the embedded string. -/
def jsToLower (s : List Char) : List Char := s.map toLowerAscii

/-- JS `String.prototype.toUpperCase` on the embedded string. -/
def jsToUpper (s : List Char) : List Char := s.map toUpperAscii

/-- Whitespace recognised by JS `trim` (ASCII part plus NBSP and BOM). -/
def isJsSpace (c : Char) : Bool :=
  c = ' ' || c = '\t' || c = '\n' || c = '\r' ||
  c.toNat = 11 || c.toNat = 12 || c.toNat = 160 || c.toNat = 65279

/-- JS `String.prototype.trim`: strip leading and trailing whitespace. -/
def jsTrim (s : List Char) : List Char :=
  ((s.dropWhile isJsSpace).reverse.dropWhile isJsSpace).reverse

/-- A character matched by the JS regex class `\w`: `[A-Za-z0-9_]`. -/
def isWordChar (c : Char) : Bool :=
  ('a' ≤ c && c ≤ 'z') || ('A' ≤ c && c ≤ 'Z') || ('0' ≤ c && c ≤ '9') || c = '_'

/-- First maximal run of `\w` characters, the match of JS `s.match(/\w+/)`,
`none` when the regex does not match (JS returns `null`). -/
def firstWordRun : List Char → Option (List Char)
  | [] => none
  | c :: cs =>
    if isWordChar c then some (c :: cs.takeWhile isWordChar) else firstWordRun cs

/-- JS `s.match(/\w+/)`: a match array holding the single full match (the
regex has no capture groups), or `none` for JS `null`. -/
def jsWordMatch (s : List Char) : Option (List (List Char)) :=
  (firstWordRun s).map (fun m => [m])

/-- JS `/^[-+]?[0-9]+/.test(s)`. -/
def hasSignedIntHead (s : List Char) : Bool :=
  match s with
  | [] => false
  | c :: rest =>
    if c = '-' || c = '+' then
      match rest with
      | [] => false
      | d :: _ => d.isDigit
    else c.isDigit

/-- Numeric value of a digit run (used by `parseInt` on a matched
`[-+]?[0-9]+` head). -/
def digitsVal (ds : List Char) : Nat :=
  ds.foldl (fun a c => 10 * a + (c.toNat - 48)) 0

/-- JS `parseInt(s.match(/^[-+]?[0-9]+/)[0])`, meaningful when
`hasSignedIntHead s` holds. -/
def signedIntHeadVal (s : List Char) : Int :=
  match s with
  | [] => 0
  | c :: rest =>
    if c = '-' then -(digitsVal (rest.takeWhile Char.isDigit) : Int)
    else if c = '+' then (digitsVal (rest.takeWhile Char.isDigit) : Int)
    else (digitsVal ((c :: rest).takeWhile Char.isDigit) : Int)

/-! ## src/rrule_converter.ts -/

/-- The `CouldNotConvertError` class.  Every `throw new CouldNotConvertError`
in the source passes no constructor arguments, so the inherited `message`
is the empty string. -/
structure CouldNotConvertError where
  message : List Char
deriving DecidableEq

/-- The rrule library's `Weekday` value: a base weekday number 0..6
(Monday = 0) plus an optional occurrence modifier `n`. -/
structure WeekdayVal where
  weekday : Nat
  n : Option Int
deriving DecidableEq

/-- Modelled from the spec (rrule library, outside this repository):
`Weekday.nth(n)` attaches the signed occurrence modifier. -/
def WeekdayVal.nth (w : WeekdayVal) (k : Int) : WeekdayVal :=
  { weekday := w.weekday, n := some k }

def RRule.MO : WeekdayVal := ⟨0, none⟩

def RRule.TU : WeekdayVal := ⟨1, none⟩

def RRule.WE : WeekdayVal := ⟨2, none⟩

def RRule.TH : WeekdayVal := ⟨3, none⟩

def RRule.FR : WeekdayVal := ⟨4, none⟩

def RRule.SA : WeekdayVal := ⟨5, none⟩

def RRule.SU : WeekdayVal := ⟨6, none⟩

/-- The cases of the `switch` in `convertUserWeekdayStringToRRuleConstant`,
in source order, as a lookup table from case label to returned constant. -/
def weekdayCaseTable : List (List Char × WeekdayVal) :=
  [("1".data, RRule.MO), ("monday".data, RRule.MO), ("mo".data, RRule.MO),
   ("2".data, RRule.TU), ("tuesday".data, RRule.TU), ("tu".data, RRule.TU),
   ("3".data, RRule.WE), ("wednesday".data, RRule.WE), ("we".data, RRule.WE),
   ("4".data, RRule.TH), ("thursday".data, RRule.TH), ("th".data, RRule.TH),
   ("5".data, RRule.FR), ("friday".data, RRule.FR), ("fr".data, RRule.FR),
   ("6".data, RRule.SA), ("saturday".data, RRule.SA), ("sa".data, RRule.SA),
   ("7".data, RRule.SU), ("sunday".data, RRule.SU), ("su".data, RRule.SU)]

/-- `convertUserWeekdayStringToRRuleConstant`: switch on
`weekday.toLowerCase().trim()`; the default branch throws a bare
`CouldNotConvertError`. -/
def convertUserWeekdayStringToRRuleConstant (weekday : List Char) :
    Except CouldNotConvertError WeekdayVal :=
  match List.lookup (jsTrim (jsToLower weekday)) weekdayCaseTable with
  | some w => Except.ok w
  | none => Except.error ⟨[]⟩

/-- The cases of the `switch` in `convertUserMonthStringToRRuleConstant`, in
source order.  Note the source's third-month abbreviation case is the
two-letter literal `"ma"`, not `"mar"`. -/
def monthCaseTable : List (List Char × Nat) :=
  [("1".data, 1), ("january".data, 1), ("jan".data, 1),
   ("2".data, 2), ("february".data, 2), ("feb".data, 2),
   ("3".data, 3), ("march".data, 3), ("ma".data, 3),
   ("4".data, 4), ("april".data, 4), ("apr".data, 4),
   ("5".data, 5), ("may".data, 5),
   ("6".data, 6), ("june".data, 6), ("jun".data, 6),
   ("7".data, 7), ("july".data, 7), ("jul".data, 7),
   ("8".data, 8), ("august".data, 8), ("aug".data, 8),
   ("9".data, 9), ("september".data, 9), ("sep".data, 9),
   ("10".data, 10), ("october".data, 10), ("oct".data, 10),
   ("11".data, 11), ("november".data, 11), ("nov".data, 11),
   ("12".data, 12), ("december".data, 12), ("dec".data, 12)]

/-- `convertUserMonthStringToRRuleConstant`: switch on
`month.toLowerCase().trim()`; the default branch throws a bare
`CouldNotConvertError`. -/
def convertUserMonthStringToRRuleConstant (month : List Char) :
    Except CouldNotConvertError Nat :=
  match List.lookup (jsTrim (jsToLower month)) monthCaseTable with
  | some m => Except.ok m
  | none => Except.error ⟨[]⟩

/-- The `frequencyStringToRRuleConstants` object of
`convertFrequencyStringToRRuleConstant`; the rrule `Frequency` enum values
are YEARLY = 0 .. SECONDLY = 6. -/
def frequencyTable : List (List Char × Nat) :=
  [("YEARLY".data, 0), ("MONTHLY".data, 1), ("WEEKLY".data, 2),
   ("DAILY".data, 3), ("HOURLY".data, 4), ("MINUTELY".data, 5),
   ("SECONDLY".data, 6)]

/-- `convertFrequencyStringToRRuleConstant`: `frequency.trim().toUpperCase()`
then an own-property lookup; absent keys throw a bare
`CouldNotConvertError`. -/
def convertFrequencyStringToRRuleConstant (frequency : List Char) :
    Except CouldNotConvertError Nat :=
  match List.lookup (jsToUpper (jsTrim frequency)) frequencyTable with
  | some f => Except.ok f
  | none => Except.error ⟨[]⟩

/-- Possible outcomes of `convertUserByWeekdayToRRuleConstant`, separating
the documented `CouldNotConvertError` channel from the JS `TypeError`
raised by reading `.length` of a `null` match result. -/
inductive ByConvResult where
  | ok (w : WeekdayVal)
  | convError (message : List Char)
  | typeError
deriving DecidableEq

/-- `convertUserByWeekdayToRRuleConstant`: lower-cases and trims the input,
matches `/\w+/` (reading `.length` of the result without a null guard),
then, when a `/^[-+]?[0-9]+/` head is present, parses it with `parseInt`
and attaches it via `.nth`, converting the matched word with
`convertUserWeekdayStringToRRuleConstant` either way. -/
def convertUserByWeekdayToRRuleConstant (byWeekday0 : List Char) : ByConvResult :=
  let byWeekday := jsTrim (jsToLower byWeekday0)
  match jsWordMatch byWeekday with
  | none => ByConvResult.typeError
  | some arr =>
    if arr.length ≠ 1 then ByConvResult.convError []
    else
      let weekday := arr.headD []
      if hasSignedIntHead byWeekday then
        match convertUserWeekdayStringToRRuleConstant weekday with
        | Except.ok w => ByConvResult.ok (w.nth (signedIntHeadVal byWeekday))
        | Except.error e => ByConvResult.convError e.message
      else
        match convertUserWeekdayStringToRRuleConstant weekday with
        | Except.ok w => ByConvResult.ok w
        | Except.error e => ByConvResult.convError e.message

/-! ## Theorems for claims C1, C2, C4, C10 -/

/-- C1: the claim says a prefixed weekday token such as "-1FR" or "2TU"
converts to the weekday with occurrence modifier n.  On the code the
`/\w+/` word match swallows the digit part of the prefix, so the weekday
lookup receives "1fr" (resp. "2tu") and the call throws a
`CouldNotConvertError`; an unprefixed token such as "FR" still converts. -/
theorem convertUserByWeekday_digit_head_raises :
    convertUserByWeekdayToRRuleConstant "-1FR".data = ByConvResult.convError [] ∧
    convertUserByWeekdayToRRuleConstant "2TU".data = ByConvResult.convError [] ∧
    convertUserByWeekdayToRRuleConstant "1Friday".data = ByConvResult.convError [] ∧
    convertUserByWeekdayToRRuleConstant "FR".data = ByConvResult.ok RRule.FR := by
  refine ⟨?_, ?_, ?_, ?_⟩ <;> rfl

/-- C2: the claim says every month's three-letter English abbreviation is
accepted.  The switch lists `"ma"` instead of `"mar"`, so "Mar" falls to
the default branch and raises, while "Feb", "2" and "February" do agree on
the canonical code 2 as the claim's example states. -/
theorem convertUserMonth_mar_raises :
    convertUserMonthStringToRRuleConstant "Mar".data = Except.error ⟨[]⟩ ∧
    convertUserMonthStringToRRuleConstant "Feb".data = Except.ok 2 ∧
    convertUserMonthStringToRRuleConstant "2".data = Except.ok 2 ∧
    convertUserMonthStringToRRuleConstant "February".data = Except.ok 2 ∧
    convertUserMonthStringToRRuleConstant "ma".data = Except.ok 3 := by
  refine ⟨?_, ?_, ?_, ?_, ?_⟩ <;> rfl

/-- C4 counterexample: the claim says converting "Xyz" as a month fails with
a `ConversionError` carrying "xyz".  The source throws
`new CouldNotConvertError` with no arguments, so the error's message is
the empty string, not "xyz". -/
theorem convertUserMonth_xyz_message_empty :
    convertUserMonthStringToRRuleConstant "Xyz".data = Except.error ⟨[]⟩ ∧
    ([] : List Char) ≠ "xyz".data := by
  exact ⟨rfl, by decide⟩

/-- C4 (amended): every rejection by the weekday, month or frequency
converter raises a `CouldNotConvertError` constructed with no arguments,
whose carried message is empty; neither the offending literal nor the
target field is attached. -/
theorem converters_error_message_empty (s : List Char) (e : CouldNotConvertError)
    (h : convertUserMonthStringToRRuleConstant s = Except.error e ∨
      convertUserWeekdayStringToRRuleConstant s = Except.error e ∨
      convertFrequencyStringToRRuleConstant s = Except.error e) :
    e.message = [] := by
  rcases h with h | h | h
  · unfold convertUserMonthStringToRRuleConstant at h
    cases hl : List.lookup (jsTrim (jsToLower s)) monthCaseTable with
    | some m => rw [hl] at h; exact absurd h (fun hc => Except.noConfusion hc)
    | none => rw [hl] at h; cases h; rfl
  · unfold convertUserWeekdayStringToRRuleConstant at h
    cases hl : List.lookup (jsTrim (jsToLower s)) weekdayCaseTable with
    | some m => rw [hl] at h; exact absurd h (fun hc => Except.noConfusion hc)
    | none => rw [hl] at h; cases h; rfl
  · unfold convertFrequencyStringToRRuleConstant at h
    cases hl : List.lookup (jsToUpper (jsTrim s)) frequencyTable with
    | some m => rw [hl] at h; exact absurd h (fun hc => Except.noConfusion hc)
    | none => rw [hl] at h; cases h; rfl

/-- C4 witness: the amended statement applied at the concrete input "Xyz"
converted as a month. -/
theorem converters_error_message_empty_witness :
    (CouldNotConvertError.mk []).message = [] :=
  converters_error_message_empty "Xyz".data ⟨[]⟩ (Or.inl rfl)

/-- C10: on an input with no word character (the empty string, "??") the
`/\w+/` match is `null` and the unguarded `.length` read raises a
`TypeError`, not the documented `CouldNotConvertError`. -/
theorem convertUserByWeekday_no_word_typeError :
    convertUserByWeekdayToRRuleConstant "".data = ByConvResult.typeError ∧
    convertUserByWeekdayToRRuleConstant "??".data = ByConvResult.typeError := by
  exact ⟨rfl, rfl⟩

/-! ## src/utils/object.helpers.ts and the ModifyRRule option overlay -/

inductive JSVal (α : Type) where
  | undef
  | val (v : α)
deriving DecidableEq

abbrev JSObject (κ α : Type) := List (κ × JSVal α)

def deleteUndefinedProps {κ α : Type} (o : JSObject κ α) : JSObject κ α :=
  o.filter (fun p => match p.2 with | JSVal.undef => false | JSVal.val _ => true)

def getProp {κ α : Type} [DecidableEq κ] (o : JSObject κ α) (k : κ) :
    Option (JSVal α) :=
  (o.find? (fun p => p.1 == k)).map (fun p => p.2)

def spreadMerge {κ α : Type} [DecidableEq κ] (a b : JSObject κ α) : JSObject κ α :=
  a.map (fun p => match getProp b p.1 with | some v => (p.1, v) | none => p) ++
  b.filter (fun p => (getProp a p.1).isNone)

def buildOptionsObject {κ α : Type} (keys : List κ) (supplied : κ → Option α) :
    JSObject κ α :=
  keys.map (fun k =>
    (k, match supplied k with | some v => JSVal.val v | none => JSVal.undef))

def modifyOptions {κ α : Type} [DecidableEq κ] (old : JSObject κ α)
    (keys : List κ) (supplied : κ → Option α) : JSObject κ α :=
  spreadMerge old (deleteUndefinedProps (buildOptionsObject keys supplied))

theorem getProp_nil {κ α : Type} [DecidableEq κ] (k : κ) :
    getProp ([] : JSObject κ α) k = none := rfl

theorem getProp_cons {κ α : Type} [DecidableEq κ] (k0 : κ) (x : JSVal α)
    (o : JSObject κ α) (k : κ) :
    getProp ((k0, x) :: o) k = if k0 = k then some x else getProp o k := by
  by_cases h : k0 = k <;> simp [getProp, List.find?_cons, h]

theorem getProp_append {κ α : Type} [DecidableEq κ] (a b : JSObject κ α) (k : κ) :
    getProp (a ++ b) k =
      match getProp a k with
      | some x => some x
      | none => getProp b k := by
  induction a with
  | nil => rw [List.nil_append, getProp_nil]
  | cons p a ih =>
    obtain ⟨k0, x⟩ := p
    rw [List.cons_append, getProp_cons, getProp_cons]
    by_cases h : k0 = k
    · rw [if_pos h, if_pos h]
    · rw [if_neg h, if_neg h, ih]

theorem getProp_filter_key {κ α : Type} [DecidableEq κ] (r : κ → Bool)
    (o : JSObject κ α) (k : κ) :
    getProp (o.filter (fun p => r p.1)) k =
      if r k then getProp o k else none := by
  induction o with
  | nil =>
    rw [List.filter_nil, getProp_nil]
    cases r k <;> simp
  | cons p o ih =>
    obtain ⟨k0, x⟩ := p
    rw [List.filter_cons]
    by_cases h : k0 = k
    · subst h
      cases hr : r k0
      · rw [if_neg (by simp), ih, getProp_cons, if_pos rfl, hr]
        simp
      · rw [if_pos (by simp [hr]), getProp_cons, if_pos rfl]
        simp [getProp_cons, hr]
    · cases hr : r k0
      · rw [if_neg (by simp), ih, getProp_cons, if_neg h]
      · rw [if_pos (by simp [hr]), getProp_cons, if_neg h, ih, getProp_cons,
          if_neg h]

theorem getProp_map_overlay {κ α : Type} [DecidableEq κ] (b a : JSObject κ α)
    (k : κ) :
    getProp
      (a.map (fun p => match getProp b p.1 with | some v => (p.1, v) | none => p))
      k =
      match getProp a k with
      | some x => some (match getProp b k with | some v => v | none => x)
      | none => none := by
  induction a with
  | nil => rfl
  | cons p a ih =>
    obtain ⟨k0, x⟩ := p
    rw [List.map_cons]
    by_cases h : k0 = k
    · subst h
      cases hb : getProp b k0 <;> simp [getProp_cons, hb, ih]
    · cases hb : getProp b k0 <;> simp [getProp_cons, h, hb, ih]

theorem getProp_spreadMerge {κ α : Type} [DecidableEq κ] (a b : JSObject κ α)
    (k : κ) :
    getProp (spreadMerge a b) k =
      match getProp b k with
      | some v => some v
      | none => getProp a k := by
  have hfilter := getProp_filter_key (fun q => (getProp a q).isNone) b k
  rw [spreadMerge, getProp_append, getProp_map_overlay, hfilter]
  cases ha : getProp a k <;> cases hb : getProp b k <;> simp [ha, hb]

theorem getProp_deleteUndefined_build {κ α : Type} [DecidableEq κ]
    (keys : List κ) (supplied : κ → Option α) (k : κ) :
    getProp (deleteUndefinedProps (buildOptionsObject keys supplied)) k =
      if k ∈ keys then (supplied k).map JSVal.val else none := by
  induction keys with
  | nil => simp [getProp, deleteUndefinedProps, buildOptionsObject]
  | cons k0 ks ih =>
    cases hs : supplied k0 with
    | none =>
      have hstep : deleteUndefinedProps (buildOptionsObject (k0 :: ks) supplied) =
          deleteUndefinedProps (buildOptionsObject ks supplied) := by
        simp [buildOptionsObject, deleteUndefinedProps, List.filter_cons, hs]
      rw [hstep, ih]
      by_cases h : k0 = k
      · subst h
        simp [hs]
      · simp [List.mem_cons, Ne.symm h]
    | some v =>
      have hstep : deleteUndefinedProps (buildOptionsObject (k0 :: ks) supplied) =
          (k0, JSVal.val v) :: deleteUndefinedProps (buildOptionsObject ks supplied) := by
        simp [buildOptionsObject, deleteUndefinedProps, List.filter_cons, hs]
      rw [hstep, getProp_cons]
      by_cases h : k0 = k
      · subst h
        simp [hs]
      · rw [if_neg h, ih]
        simp [List.mem_cons, Ne.symm h]

theorem getProp_eq_none_of_not_mem {κ α : Type} [DecidableEq κ]
    (o : JSObject κ α) (k : κ) (h : k ∉ o.map Prod.fst) : getProp o k = none := by
  induction o with
  | nil => rfl
  | cons p o ih =>
    obtain ⟨k0, x⟩ := p
    rw [getProp_cons, if_neg, ih]
    · intro hm
      exact h (by simp [hm])
    · intro he
      exact h (by simp [he])

/-- C5: `ModifyRRule` overlays the options parsed from the rule string with
exactly the supplied parameter values: a supplied key takes the new value,
a key the caller left out (its entry is `undefined` and removed by
`deleteUndefinedProps` before the spread) keeps the parsed value, and so
does any key outside the parameter list; the parsed object itself is
never mutated, a brand-new object being built by the spread. -/
theorem modifyOptions_overlay {κ α : Type} [DecidableEq κ] (old : JSObject κ α)
    (keys : List κ) (supplied : κ → Option α) (k : κ) :
    (∀ v, k ∈ keys → supplied k = some v →
      getProp (modifyOptions old keys supplied) k = some (JSVal.val v)) ∧
    (supplied k = none →
      getProp (modifyOptions old keys supplied) k = getProp old k) ∧
    (k ∉ keys →
      getProp (modifyOptions old keys supplied) k = getProp old k) := by
  have hmain : getProp (modifyOptions old keys supplied) k =
      match (if k ∈ keys then (supplied k).map JSVal.val else none) with
      | some v => some v
      | none => getProp old k := by
    rw [modifyOptions, getProp_spreadMerge, getProp_deleteUndefined_build]
  refine ⟨?_, ?_, ?_⟩
  · intro v hk hv
    rw [hmain, if_pos hk, hv]
    rfl
  · intro hv
    rw [hmain, hv]
    simp
  · intro hk
    rw [hmain, if_neg hk]

/-- C9: `deleteUndefinedProps` removes exactly the keys whose value is
`undefined`: afterwards no key reads as `undefined`, every key with a
defined value still reads its original value, and a key that read
`undefined` before no longer exists. -/
theorem deleteUndefinedProps_spec {κ α : Type} [DecidableEq κ] (o : JSObject κ α)
    (hnd : (o.map Prod.fst).Nodup) (k : κ) :
    (∀ v, getProp o k = some (JSVal.val v) →
      getProp (deleteUndefinedProps o) k = some (JSVal.val v)) ∧
    (getProp o k = some JSVal.undef → getProp (deleteUndefinedProps o) k = none) ∧
    (getProp o k = none → getProp (deleteUndefinedProps o) k = none) ∧
    getProp (deleteUndefinedProps o) k ≠ some JSVal.undef := by
  induction o with
  | nil =>
    exact ⟨fun v h => Option.noConfusion h, fun h => Option.noConfusion h,
      fun _ => rfl, fun h => Option.noConfusion h⟩
  | cons p o ih =>
    obtain ⟨k0, x⟩ := p
    rw [List.map_cons, List.nodup_cons] at hnd
    obtain ⟨hk0, hnd2⟩ := hnd
    have IH := ih hnd2
    cases x with
    | val v0 =>
      have hstep : deleteUndefinedProps ((k0, JSVal.val v0) :: o) =
          (k0, JSVal.val v0) :: deleteUndefinedProps o := by
        simp [deleteUndefinedProps, List.filter_cons]
      rw [hstep]
      by_cases h : k0 = k
      · subst h
        refine ⟨?_, ?_, ?_, ?_⟩
        · intro v hv
          rw [getProp_cons, if_pos rfl] at hv
          rw [getProp_cons, if_pos rfl, hv]
        · intro hv
          rw [getProp_cons, if_pos rfl] at hv
          exact absurd hv (by simp)
        · intro hv
          rw [getProp_cons, if_pos rfl] at hv
          exact absurd hv (by simp)
        · rw [getProp_cons, if_pos rfl]
          simp
      · refine ⟨?_, ?_, ?_, ?_⟩
        · intro v hv
          rw [getProp_cons, if_neg h] at hv
          rw [getProp_cons, if_neg h]
          exact IH.1 v hv
        · intro hv
          rw [getProp_cons, if_neg h] at hv
          rw [getProp_cons, if_neg h]
          exact IH.2.1 hv
        · intro hv
          rw [getProp_cons, if_neg h] at hv
          rw [getProp_cons, if_neg h]
          exact IH.2.2.1 hv
        · rw [getProp_cons, if_neg h]
          exact IH.2.2.2
    | undef =>
      have hstep : deleteUndefinedProps ((k0, JSVal.undef) :: o) =
          deleteUndefinedProps o := by
        simp [deleteUndefinedProps, List.filter_cons]
      rw [hstep]
      by_cases h : k0 = k
      · subst h
        refine ⟨?_, ?_, ?_, ?_⟩
        · intro v hv
          rw [getProp_cons, if_pos rfl] at hv
          exact absurd hv (by simp)
        · intro hv
          exact IH.2.2.1 (getProp_eq_none_of_not_mem o k0 hk0)
        · intro hv
          rw [getProp_cons, if_pos rfl] at hv
          exact absurd hv (by simp)
        · exact IH.2.2.2
      · refine ⟨?_, ?_, ?_, ?_⟩
        · intro v hv
          rw [getProp_cons, if_neg h] at hv
          exact IH.1 v hv
        · intro hv
          rw [getProp_cons, if_neg h] at hv
          exact IH.2.1 hv
        · intro hv
          rw [getProp_cons, if_neg h] at hv
          exact IH.2.2.1 hv
        · exact IH.2.2.2

/-- C5 witness: the overlay theorem applied at a concrete parsed object,
parameter-key list and supplied subset. -/
theorem modifyOptions_overlay_witness :
    getProp (modifyOptions [((1 : Nat), JSVal.val (10 : Nat)), (2, JSVal.val 20)]
        [1, 2, 3] (fun k => if k = 1 then some 99 else none)) 1 =
      some (JSVal.val 99) ∧
    getProp (modifyOptions [((1 : Nat), JSVal.val (10 : Nat)), (2, JSVal.val 20)]
        [1, 2, 3] (fun k => if k = 1 then some 99 else none)) 2 =
      getProp [((1 : Nat), JSVal.val (10 : Nat)), (2, JSVal.val 20)] 2 ∧
    getProp (modifyOptions [((1 : Nat), JSVal.val (10 : Nat)), (2, JSVal.val 20)]
        [1, 2, 3] (fun k => if k = 1 then some 99 else none)) 7 =
      getProp [((1 : Nat), JSVal.val (10 : Nat)), (2, JSVal.val 20)] 7 :=
  ⟨(modifyOptions_overlay _ _ _ 1).1 99 (by decide) rfl,
   (modifyOptions_overlay _ _ _ 2).2.1 rfl,
   (modifyOptions_overlay _ _ _ 7).2.2 (by decide)⟩

/-- C9 witness: the deletion theorem applied at a concrete object with one
defined and one undefined property. -/
theorem deleteUndefinedProps_spec_witness :
    getProp (deleteUndefinedProps
        [((1 : Nat), JSVal.val (5 : Nat)), (2, JSVal.undef)]) 2 = none ∧
    getProp (deleteUndefinedProps
        [((1 : Nat), JSVal.val (5 : Nat)), (2, JSVal.undef)]) 1 =
      some (JSVal.val 5) :=
  ⟨(deleteUndefinedProps_spec _ (by decide) 2).2.1 rfl,
   (deleteUndefinedProps_spec _ (by decide) 1).1 5 rfl⟩

/-! ## The occurrence-query formulas of src/pack.ts -/

/-- The hard cap constant `MAX_CONSUMED_RECURRENCES` of src/pack.ts. -/
def MAX_CONSUMED_RECURRENCES : Int := 1000

/-- The `limitingIterator` of src/pack.ts: keep going while the 0-based
occurrence index is below `limit`; the date argument is unused. -/
def limitingIterator (limit : Int) (_date : Int) (i : Nat) : Bool :=
  decide ((i : Int) < limit)

/-- Modelled from the spec (rrule library `all(iterator)`, outside this
repository): occurrences are offered lazily, in ascending order, to the
stop predicate together with their 0-based global index; the first
`false` halts generation immediately. -/
def rruleAllIterFrom (iter : Int → Nat → Bool) : List Int → Nat → List Int
  | [], _ => []
  | d :: ds, i => if iter d i then d :: rruleAllIterFrom iter ds (i + 1) else []

/-- The library `all(iterator)` applied from index 0. -/
def rruleAllIter (occs : List Int) (iter : Int → Nat → Bool) : List Int :=
  rruleAllIterFrom iter occs 0

/-- Modelled from the spec: `all()` with no stop predicate materializes the
full occurrence sequence. -/
def rruleAllNoIter (occs : List Int) : List Int := occs

/-- Range predicate of `between(after, before, inclusive)` (spec §4.6). -/
def inRange (lo hi : Int) (inc : Bool) (t : Int) : Bool :=
  if inc then decide (lo ≤ t ∧ t ≤ hi) else decide (lo < t ∧ t < hi)

/-- Modelled from the spec (rrule library `between`): the ascending
subsequence inside the range, offered to the iterator with indices
counted over the produced occurrences. -/
def rruleBetween (occs : List Int) (lo hi : Int) (inc : Bool)
    (iter : Int → Nat → Bool) : List Int :=
  rruleAllIter (occs.filter (inRange lo hi inc)) iter

/-- The `All` formula body after a successful parse:
`limit = Math.min(limit, MAX_CONSUMED_RECURRENCES)` then
`rule.all(limitingIterator(limit))`. -/
def AllExecuteCore (occs : List Int) (limit : Int) : List Int :=
  rruleAllIter occs (limitingIterator (min limit MAX_CONSUMED_RECURRENCES))

/-- The `Between` formula body after a successful parse, with the same
silent cap on `limit`. -/
def BetweenExecuteCore (occs : List Int) (lo hi limit : Int) (inc : Bool) :
    List Int :=
  rruleBetween occs lo hi inc (limitingIterator (min limit MAX_CONSUMED_RECURRENCES))

/-- The `First` formula body after a successful parse:
`rule.all().length > 0 ? rule.all()[0] : BLANK`, with no limiting
iterator; `none` stands for the `BLANK` result. -/
def FirstExecuteCore (occs : List Int) : Option Int :=
  if (rruleAllNoIter occs).length > 0 then some ((rruleAllNoIter occs).headD 0)
  else none

/-- How many occurrences the `First` formula materializes: the length of
the uncapped `rule.all()` it evaluates. -/
def firstMaterializedCount (occs : List Int) : Nat :=
  (rruleAllNoIter occs).length

theorem length_rruleAllIterFrom_le (L : Int) (ds : List Int) (i : Nat) :
    (rruleAllIterFrom (limitingIterator L) ds i).length ≤ (L - i).toNat := by
  induction ds generalizing i with
  | nil => simp [rruleAllIterFrom]
  | cons d ds ih =>
    rw [rruleAllIterFrom]
    by_cases h : limitingIterator L d i = true
    · rw [if_pos h]
      have h2 : (i : Int) < L := of_decide_eq_true h
      have h3 := ih (i + 1)
      simp only [List.length_cons]
      omega
    · rw [if_neg h]
      simp

/-- C3 (amended): the `All` and `Between` formulas never yield more than
the configured maximum of 1000 occurrences, whatever limit the caller
requests, because the requested limit is silently clamped; the
first-occurrence formula is not covered by the cap. -/
theorem all_between_capped (occs : List Int) (limit lo hi : Int) (inc : Bool) :
    (AllExecuteCore occs limit).length ≤ 1000 ∧
    (BetweenExecuteCore occs lo hi limit inc).length ≤ 1000 := by
  have hmin : min limit MAX_CONSUMED_RECURRENCES ≤ 1000 := min_le_right _ _
  constructor
  · have h := length_rruleAllIterFrom_le (min limit MAX_CONSUMED_RECURRENCES) occs 0
    rw [AllExecuteCore, rruleAllIter]
    omega
  · have h := length_rruleAllIterFrom_le (min limit MAX_CONSUMED_RECURRENCES)
      (occs.filter (inRange lo hi inc)) 0
    rw [BetweenExecuteCore, rruleBetween, rruleAllIter]
    omega

/-- C3 counterexample: the claim says the first-occurrence query never
materializes more than the 1000-occurrence maximum, but `First` calls
`rule.all()` with no limiting iterator, so a rule whose sequence has 1001
occurrences is materialized in full. -/
theorem first_uncapped_cex :
    firstMaterializedCount (List.map Int.ofNat (List.range 1001)) = 1001 ∧
    1001 > 1000 := by
  constructor
  · rw [firstMaterializedCount, rruleAllNoIter, List.length_map, List.length_range]
  · decide

/-- Outcome of a formula execution: a value, or the UserVisibleError pack
formulas raise on parse failure. -/
inductive FormulaResult (α : Type) where
  | ok (v : α)
  | userVisibleError (message : List Char)
deriving DecidableEq

/-- Threshold predicate of `after(date, inclusive)` (spec §4.6). -/
def afterPred (d : Int) (inc : Bool) (t : Int) : Bool :=
  if inc then decide (d ≤ t) else decide (d < t)

/-- Threshold predicate of `before(date, inclusive)` (spec §4.6). -/
def beforePred (d : Int) (inc : Bool) (t : Int) : Bool :=
  if inc then decide (t ≤ d) else decide (t < d)

/-- Modelled from the spec: `after` returns the minimum occurrence past
the threshold or a null result; on the ascending sequence this is the
first satisfying element. -/
def rruleAfter (occs : List Int) (d : Int) (inc : Bool) : Option Int :=
  occs.find? (afterPred d inc)

/-- Modelled from the spec: `before` returns the maximum occurrence under
the threshold or a null result; on the ascending sequence this is the
last satisfying element. -/
def rruleBefore (occs : List Int) (d : Int) (inc : Bool) : Option Int :=
  (occs.filter (beforePred d inc)).getLast?

/-- The `After` formula of src/pack.ts: parse failure surfaces as a
UserVisibleError; a null library result becomes the BLANK marker
(`ok none`). -/
def AfterExecute (parsed : Except (List Char) (List Int)) (d : Int) (inc : Bool) :
    FormulaResult (Option Int) :=
  match parsed with
  | Except.error e => FormulaResult.userVisibleError e
  | Except.ok occs =>
    match rruleAfter occs d inc with
    | some t => FormulaResult.ok (some t)
    | none => FormulaResult.ok none

/-- The `Before` formula of src/pack.ts, analogous to `After`. -/
def BeforeExecute (parsed : Except (List Char) (List Int)) (d : Int) (inc : Bool) :
    FormulaResult (Option Int) :=
  match parsed with
  | Except.error e => FormulaResult.userVisibleError e
  | Except.ok occs =>
    match rruleBefore occs d inc with
    | some t => FormulaResult.ok (some t)
    | none => FormulaResult.ok none

/-- The `First` formula of src/pack.ts wrapped with its parse step. -/
def FirstExecute (parsed : Except (List Char) (List Int)) :
    FormulaResult (Option Int) :=
  match parsed with
  | Except.error e => FormulaResult.userVisibleError e
  | Except.ok occs => FormulaResult.ok (FirstExecuteCore occs)

/-- The `Between` formula of src/pack.ts wrapped with its parse step. -/
def BetweenExecute (parsed : Except (List Char) (List Int)) (lo hi limit : Int)
    (inc : Bool) : FormulaResult (List Int) :=
  match parsed with
  | Except.error e => FormulaResult.userVisibleError e
  | Except.ok occs => FormulaResult.ok (BetweenExecuteCore occs lo hi limit inc)

/-- C6: for a successfully parsed rule, a `Between` query whose range holds
no occurrence returns the empty sequence, and `First`, `After` and
`Before` with no satisfying occurrence return the BLANK none-marker; in
every case the result is an `ok`, never an error. -/
theorem absence_is_not_error (occs : List Int) (d lo hi limit : Int) (inc : Bool) :
    ((∀ t ∈ occs, afterPred d inc t = false) →
      AfterExecute (Except.ok occs) d inc = FormulaResult.ok none) ∧
    ((∀ t ∈ occs, beforePred d inc t = false) →
      BeforeExecute (Except.ok occs) d inc = FormulaResult.ok none) ∧
    (occs = [] → FirstExecute (Except.ok occs) = FormulaResult.ok none) ∧
    ((∀ t ∈ occs, inRange lo hi inc t = false) →
      BetweenExecute (Except.ok occs) lo hi limit inc = FormulaResult.ok []) := by
  refine ⟨?_, ?_, ?_, ?_⟩
  · intro h
    have hf : occs.find? (afterPred d inc) = none := by
      rw [List.find?_eq_none]
      intro x hx
      rw [h x hx]
      simp
    simp [AfterExecute, rruleAfter, hf]
  · intro h
    have hf : occs.filter (beforePred d inc) = [] := by
      rw [List.filter_eq_nil_iff]
      intro x hx
      rw [h x hx]
      simp
    simp [BeforeExecute, rruleBefore, hf]
  · intro h
    subst h
    rfl
  · intro h
    have hf : occs.filter (inRange lo hi inc) = [] := by
      rw [List.filter_eq_nil_iff]
      intro x hx
      rw [h x hx]
      simp
    simp [BetweenExecute, BetweenExecuteCore, rruleBetween, rruleAllIter, hf,
      rruleAllIterFrom]

/-- C6 witness: the absence theorem applied at concrete rules and
thresholds with no satisfying occurrence. -/
theorem absence_is_not_error_witness :
    AfterExecute (Except.ok [(5 : Int)]) 10 false = FormulaResult.ok none ∧
    BeforeExecute (Except.ok [(5 : Int)]) 0 false = FormulaResult.ok none ∧
    FirstExecute (Except.ok ([] : List Int)) = FormulaResult.ok none ∧
    BetweenExecute (Except.ok [(5 : Int)]) 20 30 100 false = FormulaResult.ok [] :=
  ⟨(absence_is_not_error [5] 10 20 30 100 false).1 (by decide),
   (absence_is_not_error [5] 0 20 30 100 false).2.1 (by decide),
   (absence_is_not_error [] 10 20 30 100 false).2.2.1 rfl,
   (absence_is_not_error [5] 10 20 30 100 false).2.2.2 (by decide)⟩

/-- Options handed to the rrule constructor (the fields relevant to anchor
defaulting; `dtstart` may be absent). -/
structure RRuleJsOptions where
  dtstart : Option Int
  freq : Nat
  interval : Nat
  count : Option Nat
deriving DecidableEq

/-- A constructed rule: every option resolved, the anchor concrete. -/
structure ConstructedRule where
  dtstart : Int
  freq : Nat
  interval : Nat
  count : Option Nat
deriving DecidableEq

/-- Modelled from the spec: rrule construction resolves an absent
`dtstart` to the construction-time clock instant, at construction and
not at query time. -/
def constructRRule (opts : RRuleJsOptions) (constructionNow : Int) :
    ConstructedRule :=
  { dtstart := opts.dtstart.getD constructionNow,
    freq := opts.freq,
    interval := opts.interval,
    count := opts.count }

/-- Modelled from the spec: the occurrence sequence is a pure function of
the constructed rule (anchor-aligned periods under the hard cap); a
simple anchor-plus-multiples generator stands for the period
arithmetic. -/
def ruleOccurrences (r : ConstructedRule) : List Int :=
  (List.range (min (r.count.getD 1000) 1000)).map
    (fun i => r.dtstart + (i : Int) * (r.interval : Int))

/-- An occurrence query evaluated while the clock reads `queryNow`; the
generator never consults the query-time clock. -/
def queryAllAt (r : ConstructedRule) (_queryNow : Int) : List Int :=
  ruleOccurrences r

/-- C7: a rule built without an explicit anchor gets the construction-time
instant as its concrete anchor, and two occurrence queries evaluated at
different later times against that same constructed rule return
identical results. -/
theorem anchor_fixed_at_construction (opts : RRuleJsOptions) (t0 t1 t2 : Int) :
    queryAllAt (constructRRule opts t0) t1 = queryAllAt (constructRRule opts t0) t2 ∧
    (opts.dtstart = none → (constructRRule opts t0).dtstart = t0) := by
  refine ⟨rfl, ?_⟩
  intro h
  simp [constructRRule, h]

/-- C7 witness: the anchor theorem applied to a concrete anchorless rule
constructed at time 100 and queried at times 7 and 8. -/
theorem anchor_fixed_at_construction_witness :
    queryAllAt (constructRRule ⟨none, 3, 1, some 2⟩ 100) 7 =
      queryAllAt (constructRRule ⟨none, 3, 1, some 2⟩ 100) 8 ∧
    (constructRRule ⟨none, 3, 1, some 2⟩ 100).dtstart = 100 :=
  ⟨(anchor_fixed_at_construction ⟨none, 3, 1, some 2⟩ 100 7 8).1,
   (anchor_fixed_at_construction ⟨none, 3, 1, some 2⟩ 100 7 8).2 rfl⟩

/-! ## src/utils/string.helpers.ts: control-code escaping -/

/-- Evaluation fact: `Char.ofNat` inverts `toNat` on the ASCII range. -/
theorem charOfNat_toNat_small : ∀ n : Nat, n < 128 → (Char.ofNat n).toNat = n := by
  decide

/-- `Char.toNat` is injective. -/
theorem char_toNat_inj {a b : Char} (h : a.toNat = b.toNat) : a = b := by
  apply Char.eq_of_val_eq
  apply UInt32.eq_of_toBitVec_eq
  apply BitVec.eq_of_toNat_eq
  exact h

/-- `Char.ofNat` restores an ASCII character from its code. -/
theorem char_ofNat_toNat {c : Char} (h : c.toNat < 128) : Char.ofNat c.toNat = c :=
  char_toNat_inj (charOfNat_toNat_small c.toNat h)

/-- Lower-case hex digit emitted by `JSON.stringify` in a `\u00XX`
escape. -/
def hexDigitChar (n : Nat) : Char :=
  if n < 10 then Char.ofNat (48 + n) else Char.ofNat (97 + (n - 10))

/-- How `JSON.stringify` serializes one character inside a string literal:
quote and backslash get two-character escapes, the five short control
escapes follow, any other control code becomes `\u00XX`, and everything
else — including the line terminators U+2028 and U+2029, which are legal
raw in JSON strings — is emitted verbatim.  This is only the
serialization step; the regex extraction `escapeControlCodes` performs on
the serialized object, and its failure mode, are modelled separately
below. -/
def escChar (c : Char) : List Char :=
  if c = '"' then ['\\', '"']
  else if c = '\\' then ['\\', '\\']
  else if c.toNat = 8 then ['\\', 'b']
  else if c.toNat = 9 then ['\\', 't']
  else if c.toNat = 10 then ['\\', 'n']
  else if c.toNat = 12 then ['\\', 'f']
  else if c.toNat = 13 then ['\\', 'r']
  else if c.toNat < 32 then
    ['\\', 'u', '0', '0', hexDigitChar (c.toNat / 16), hexDigitChar (c.toNat % 16)]
  else [c]

/-- A character the JS regex `.` (no `s` flag) can match: anything but a
LineTerminator, i.e. not LF, CR, U+2028 or U+2029. -/
def jsDotMatches (c : Char) : Bool :=
  !(c.toNat == 10 || c.toNat == 13 || c.toNat == 8232 || c.toNat == 8233)

/-- `escapeControlCodes(s)`:
`JSON.stringify(\x7bs\x7d).match(/^\x7b"s":\s*"(?<s>.*)"\x7d$/).groups.s`.
The serialized body is the per-character escaping; the `.*` of the
extraction regex must span the whole body (stringify leaves no raw quote
before the closing one), which fails exactly when the body contains a
character `.` cannot match — stringify escapes LF and CR, but leaves
U+2028/U+2029 raw, and on those the match is `null` and the `.groups`
read throws a TypeError, modelled as `none`. -/
def escapeControlCodes (s : List Char) : Option (List Char) :=
  if ((s.map escChar).flatten).all jsDotMatches then
    some ((s.map escChar).flatten)
  else none

/-- Value of one hex digit as read by `JSON.parse`, either case. -/
def hexVal (c : Char) : Option Nat :=
  if '0' ≤ c ∧ c ≤ '9' then some (c.toNat - 48)
  else if 'a' ≤ c ∧ c ≤ 'f' then some (c.toNat - 87)
  else if 'A' ≤ c ∧ c ≤ 'F' then some (c.toNat - 55)
  else none

/-- The two-character escapes `JSON.parse` accepts after a backslash
(besides `\u`). -/
def escCode (e : Char) : Option Char :=
  if e = '"' then some '"'
  else if e = '\\' then some '\\'
  else if e = '/' then some '/'
  else if e = 'b' then some (Char.ofNat 8)
  else if e = 'f' then some (Char.ofNat 12)
  else if e = 'n' then some '\n'
  else if e = 'r' then some (Char.ofNat 13)
  else if e = 't' then some '\t'
  else none

/-- `unescapeControlCodes(s)` parses `\x7b"s": "` ++ s ++ `"\x7d` with
`JSON.parse`; this is the string-body grammar of that parse: escapes are
decoded, while a raw quote (which would end the string early and leave
junk) or a raw control code (illegal in a JSON string) makes the parse
throw, modelled as `none`. -/
def unescapeBody : List Char → Option (List Char)
  | [] => some []
  | c :: rest =>
    if c = '\\' then
      match rest with
      | [] => none
      | e :: rest2 =>
        if e = 'u' then
          match rest2 with
          | h1 :: h2 :: h3 :: h4 :: rest3 =>
            match hexVal h1, hexVal h2, hexVal h3, hexVal h4 with
            | some a, some b, some c3, some d =>
              (unescapeBody rest3).map
                (fun tail => Char.ofNat (((a * 16 + b) * 16 + c3) * 16 + d) :: tail)
            | _, _, _, _ => none
          | _ => none
        else
          match escCode e with
          | some d => (unescapeBody rest2).map (fun tail => d :: tail)
          | none => none
    else if c = '"' then none
    else if c.toNat < 32 then none
    else (unescapeBody rest).map (fun tail => c :: tail)

/-- `unescapeControlCodes`, with `none` standing for a thrown
`SyntaxError`. -/
def unescapeControlCodes (s : List Char) : Option (List Char) := unescapeBody s

/-- Parsing inverts the emitted hex digit. -/
theorem hexVal_hexDigitChar : ∀ m : Nat, m < 16 → hexVal (hexDigitChar m) = some m := by
  decide

/-- Decoding step for a `\uXXXX` escape with four valid hex digits. -/
theorem unescapeBody_u (h1 h2 h3 h4 : Char) (a b c3 d : Nat) (rest : List Char)
    (hh1 : hexVal h1 = some a) (hh2 : hexVal h2 = some b)
    (hh3 : hexVal h3 = some c3) (hh4 : hexVal h4 = some d) :
    unescapeBody ('\\' :: 'u' :: h1 :: h2 :: h3 :: h4 :: rest) =
      (unescapeBody rest).map
        (fun t => Char.ofNat (((a * 16 + b) * 16 + c3) * 16 + d) :: t) := by
  rw [unescapeBody.eq_def]
  simp only [hh1, hh2, hh3, hh4]
  rfl

/-- Decoding inverts the escaping of one character, whatever follows. -/
theorem unescapeBody_escChar (c : Char) (rest : List Char) :
    unescapeBody (escChar c ++ rest) = (unescapeBody rest).map (fun t => c :: t) := by
  by_cases hq : c = '"'
  · subst hq
    rw [show escChar '"' ++ rest = '\\' :: '"' :: rest from rfl, unescapeBody.eq_def]
    rfl
  by_cases hb : c = '\\'
  · subst hb
    rw [show escChar '\\' ++ rest = '\\' :: '\\' :: rest from rfl, unescapeBody.eq_def]
    rfl
  by_cases h8 : c.toNat = 8
  · have hc : Char.ofNat 8 = c := by
      rw [← h8]
      exact char_ofNat_toNat (by omega)
    rw [← hc, show escChar (Char.ofNat 8) ++ rest = '\\' :: 'b' :: rest from rfl,
      unescapeBody.eq_def]
    rfl
  by_cases h9 : c.toNat = 9
  · have hc : Char.ofNat 9 = c := by
      rw [← h9]
      exact char_ofNat_toNat (by omega)
    rw [← hc, show escChar (Char.ofNat 9) ++ rest = '\\' :: 't' :: rest from rfl,
      unescapeBody.eq_def]
    rfl
  by_cases h10 : c.toNat = 10
  · have hc : Char.ofNat 10 = c := by
      rw [← h10]
      exact char_ofNat_toNat (by omega)
    rw [← hc, show escChar (Char.ofNat 10) ++ rest = '\\' :: 'n' :: rest from rfl,
      unescapeBody.eq_def]
    rfl
  by_cases h12 : c.toNat = 12
  · have hc : Char.ofNat 12 = c := by
      rw [← h12]
      exact char_ofNat_toNat (by omega)
    rw [← hc, show escChar (Char.ofNat 12) ++ rest = '\\' :: 'f' :: rest from rfl,
      unescapeBody.eq_def]
    rfl
  by_cases h13 : c.toNat = 13
  · have hc : Char.ofNat 13 = c := by
      rw [← h13]
      exact char_ofNat_toNat (by omega)
    rw [← hc, show escChar (Char.ofNat 13) ++ rest = '\\' :: 'r' :: rest from rfl,
      unescapeBody.eq_def]
    rfl
  by_cases hlo : c.toNat < 32
  · rw [escChar, if_neg hq, if_neg hb, if_neg h8, if_neg h9, if_neg h10, if_neg h12,
      if_neg h13, if_pos hlo, List.cons_append, List.cons_append, List.cons_append,
      List.cons_append, List.cons_append, List.cons_append, List.nil_append]
    rw [unescapeBody_u '0' '0' (hexDigitChar (c.toNat / 16)) (hexDigitChar (c.toNat % 16))
      0 0 (c.toNat / 16) (c.toNat % 16) rest rfl rfl
      (hexVal_hexDigitChar _ (by omega)) (hexVal_hexDigitChar _ (by omega))]
    rw [show ((0 * 16 + 0) * 16 + c.toNat / 16) * 16 + c.toNat % 16 = c.toNat from by
      omega]
    rw [char_ofNat_toNat (by omega)]
  · rw [escChar, if_neg hq, if_neg hb, if_neg h8, if_neg h9, if_neg h10, if_neg h12,
      if_neg h13, if_neg hlo, List.cons_append, List.nil_append, unescapeBody.eq_def]
    simp [hq, hb, hlo]

/-- Decoding inverts the serialized body of any string. -/
theorem unescapeBody_escape_body (s : List Char) :
    unescapeBody ((s.map escChar).flatten) = some s := by
  induction s with
  | nil => rfl
  | cons c cs ih =>
    rw [List.map_cons, List.flatten_cons, unescapeBody_escChar, ih]
    rfl

/-- Every emitted hex digit is matchable by the regex dot. -/
theorem hexDigitChar_dotMatches : ∀ m : Nat, m < 16 →
    jsDotMatches (hexDigitChar m) = true := by
  decide

/-- The serialization of one character contains no line terminator unless
the character itself is U+2028 or U+2029. -/
theorem escChar_all_dotMatches (c : Char) (hc1 : c.toNat ≠ 8232)
    (hc2 : c.toNat ≠ 8233) : (escChar c).all jsDotMatches = true := by
  rw [escChar]
  split_ifs with h1 h2 h3 h4 h5 h6 h7 h8
  · decide
  · decide
  · decide
  · decide
  · decide
  · decide
  · decide
  · have d1 : jsDotMatches (hexDigitChar (c.toNat / 16)) = true :=
      hexDigitChar_dotMatches _ (by omega)
    have d2 : jsDotMatches (hexDigitChar (c.toNat % 16)) = true :=
      hexDigitChar_dotMatches _ (by omega)
    simp only [List.all_cons, List.all_nil, d1, d2, Bool.and_true,
      show jsDotMatches '\\' = true from rfl, show jsDotMatches 'u' = true from rfl,
      show jsDotMatches '0' = true from rfl, Bool.true_and]
  · simp only [List.all_cons, List.all_nil, Bool.and_true, jsDotMatches]
    simp only [Bool.not_eq_eq_eq_not, Bool.not_true, Bool.or_eq_false_iff,
      beq_eq_false_iff_ne, ne_eq]
    omega

/-- A string without U+2028/U+2029 serializes to a body the extraction
regex accepts. -/
theorem escapeBody_all_dotMatches (s : List Char)
    (h : ∀ c ∈ s, c.toNat ≠ 8232 ∧ c.toNat ≠ 8233) :
    ((s.map escChar).flatten).all jsDotMatches = true := by
  induction s with
  | nil => rfl
  | cons c cs ih =>
    rw [List.map_cons, List.flatten_cons, List.all_append]
    have hc := h c (List.mem_cons_self c cs)
    rw [escChar_all_dotMatches c hc.1 hc.2,
      ih (fun d hd => h d (List.mem_cons_of_mem c hd))]
    rfl

/-- C8 counterexample: the claim says every string survives
unescape-after-escape unchanged, but on the one-character string U+2028
(LINE SEPARATOR) `escapeControlCodes` itself throws: `JSON.stringify`
leaves the character raw and the extraction regex's `.` cannot match a
line terminator, so the match is `null` and reading `.groups` raises a
TypeError; no round trip happens at all. -/
theorem escapeControlCodes_lineSep_throws :
    escapeControlCodes [Char.ofNat 8232] = none ∧
    (escapeControlCodes [Char.ofNat 8232]).bind unescapeControlCodes ≠
      some [Char.ofNat 8232] := by
  refine ⟨rfl, ?_⟩
  intro h
  exact Option.noConfusion h

/-- C8 (amended): for every string containing neither U+2028 nor U+2029
(the line terminators `JSON.stringify` leaves raw and the extraction
regex's `.` cannot match), escaping succeeds and unescaping the escaped
form returns the original string; a string containing one of those two
characters makes `escapeControlCodes` throw a TypeError instead. -/
theorem escape_unescape_roundtrip_no_lineterm (s : List Char)
    (h : ∀ c ∈ s, c.toNat ≠ 8232 ∧ c.toNat ≠ 8233) :
    (escapeControlCodes s).bind unescapeControlCodes = some s := by
  rw [escapeControlCodes, if_pos (escapeBody_all_dotMatches s h)]
  show unescapeBody ((s.map escChar).flatten) = some s
  exact unescapeBody_escape_body s

/-- C8 witness: the amended round trip applied to a concrete string with a
quote, a backslash, a newline and a control code. -/
theorem escape_unescape_roundtrip_no_lineterm_witness :
    (escapeControlCodes ['a', '\n', '"', '\\', Char.ofNat 1]).bind
      unescapeControlCodes = some ['a', '\n', '"', '\\', Char.ofNat 1] :=
  escape_unescape_roundtrip_no_lineterm ['a', '\n', '"', '\\', Char.ofNat 1]
    (by decide)
